import Mathlib

/-!
Verification of the `pytest_mh.conn` command-execution layer.

The source file `src/pytest_mh/conn/__init__.py` is shallowly embedded below:

* `Bash.build_command_line`, `Bash.add_cwd_and_env`, `escSingleQuotes` and
  `shlexQuote` translate the `Bash` shell class and Python's `shlex.quote`
  (strings are modelled as `List Char`);
* `pcRun` / `parseCmds` / `expandGo` / `execSimpleCmd` model the external
  POSIX shell that consumes the generated command lines (an external
  collaborator of the library, not code of the library itself);
* `ProcessResult`, `ProcessError`, `ProcState.wait` and the log-record
  functions translate the `Process` lifecycle code;
* `Connection.run` / `Connection.exec` and friends translate the
  `Connection` convenience layer;
* `processIdsFrom` models the shared `itertools.count` id generator.
-/

/- ===================== Shell quoting (from the source) ===================== -/

/-- Characters Python `shlex.quote` leaves unquoted: ASCII letters, digits,
underscore and the characters at, percent, plus, equals, colon, comma, dot,
slash, dash (`_find_unsafe` in `shlex`). -/
def shlexSafeChar (c : Char) : Bool :=
  c.isAlphanum || c = '_' || c = '@' || c = '%' || c = '+' || c = '=' || c = ':' ||
    c = ',' || c = '.' || c = '/' || c = '-'

/-- Replacement of every single quote by the sequence quote, double quote,
quote, double quote, quote. This is both `Bash._escape_single_quotes` and the
replacement performed inside Python `shlex.quote`. -/
def escSingleQuotes : List Char → List Char
  | [] => []
  | c :: cs =>
      if c = '\x27' then '\x27' :: '"' :: '\x27' :: '"' :: '\x27' :: escSingleQuotes cs
      else c :: escSingleQuotes cs

/-- Python `shlex.quote`: empty strings become a pair of single quotes, fully
safe strings are returned unchanged, anything else is wrapped in single quotes
with inner single quotes escaped. -/
def shlexQuote (s : List Char) : List Char :=
  if s.isEmpty then ['\x27', '\x27']
  else if s.all shlexSafeChar then s
  else '\x27' :: (escSingleQuotes s ++ ['\x27'])

/-- The `export KEY=value` lines generated by `Bash._add_cwd_and_env` for the
extra environment (the Python code iterates over `env.items()`; the mapping is
embedded as an association list in insertion order, values already
stringified). -/
def Bash.envLines (env : List (List Char × List Char)) : List Char :=
  (env.map fun kv => "export ".data ++ kv.1 ++ '=' :: (shlexQuote kv.2 ++ ['\n'])).flatten

/-- `Bash._add_cwd_and_env`: environment exports, then an optional `cd`, a
separating blank line when any prefix was generated, then the script. -/
def Bash.add_cwd_and_env (script : List Char) (cwd : Option (List Char))
    (env : List (List Char × List Char)) : List Char :=
  let out := Bash.envLines env ++
    (match cwd with
     | some d => "cd ".data ++ (shlexQuote d ++ ['\n'])
     | none => [])
  (if out.isEmpty then [] else out ++ ['\n']) ++ script

/-- The `shell_command` of the `Bash` shell. -/
def Bash.shell_command : List Char := "/usr/bin/bash -c".data

/-- `Bash.build_command_line`: the full script is wrapped in single quotes
(escaping inner single quotes) and passed as the argument of the launcher. -/
def Bash.build_command_line (script : List Char) (cwd : Option (List Char))
    (env : List (List Char × List Char)) : List Char :=
  Bash.shell_command ++ ' ' :: '\x27' ::
    (escSingleQuotes (Bash.add_cwd_and_env script cwd env) ++ ['\x27'])

/-- Python `shlex.join` on already-stringified arguments. -/
def shlexJoin : List (List Char) → List Char
  | [] => []
  | [x] => shlexQuote x
  | x :: y :: xs => shlexQuote x ++ ' ' :: shlexJoin (y :: xs)

/- ===================== POSIX shell model (external collaborator) ===================== -/

/-- Modelled from the spec: a character of a shell word after quote removal,
remembering whether it was quoted (quoted characters are immune to
expansion). -/
inductive WSeg
  | raw : Char → WSeg
  | quo : Char → WSeg
deriving DecidableEq

/-- A shell word after tokenization. -/
abbrev PWord := List WSeg

/-- Scanner state of the POSIX tokenizer: normal, after an unquoted
backslash, inside single quotes, inside double quotes, after a backslash
inside double quotes. -/
inductive PMode
  | norm
  | escnorm
  | insingle
  | indouble
  | escdouble
deriving DecidableEq

/-- Modelled from the spec: the POSIX shell tokenizer (the external shell
that executes generated command lines, out of scope of the library source).
It splits input into newline-separated simple commands, each a list of words,
applying single-quote, double-quote and backslash rules and recording which
characters were quoted. Unterminated quotes yield `none`. Expansion inside
double quotes and here-documents are not modelled; the generated command
lines never exercise them. -/
def pcRun : List Char → PMode → PWord → Bool → List PWord → Option (List (List PWord))
  | [], .norm, cur, started, cmd =>
      some (if (if started then cmd ++ [cur] else cmd).isEmpty then []
            else [if started then cmd ++ [cur] else cmd])
  | [], _, _, _, _ => none
  | c :: cs, .norm, cur, started, cmd =>
      if c = '\n' then
        (pcRun cs .norm [] false []).map (fun r => (if started then cmd ++ [cur] else cmd) :: r)
      else if c = ' ' || c = '\t' then
        pcRun cs .norm [] false (if started then cmd ++ [cur] else cmd)
      else if c = '\x27' then pcRun cs .insingle cur started cmd
      else if c = '"' then pcRun cs .indouble cur started cmd
      else if c = '\\' then pcRun cs .escnorm cur started cmd
      else pcRun cs .norm (cur ++ [.raw c]) true cmd
  | c :: cs, .escnorm, cur, started, cmd =>
      if c = '\n' then pcRun cs .norm cur started cmd
      else pcRun cs .norm (cur ++ [.quo c]) true cmd
  | c :: cs, .insingle, cur, started, cmd =>
      if c = '\x27' then pcRun cs .norm cur true cmd
      else pcRun cs .insingle (cur ++ [.quo c]) started cmd
  | c :: cs, .indouble, cur, started, cmd =>
      if c = '"' then pcRun cs .norm cur true cmd
      else if c = '\\' then pcRun cs .escdouble cur started cmd
      else pcRun cs .indouble (cur ++ [.quo c]) started cmd
  | c :: cs, .escdouble, cur, started, cmd =>
      if c = '"' || c = '\\' || c = '$' || c = '`' then pcRun cs .indouble (cur ++ [.quo c]) started cmd
      else if c = '\n' then pcRun cs .indouble cur started cmd
      else pcRun cs .indouble (cur ++ [.quo '\\', .quo c]) started cmd

/-- The character carried by a word segment (quote removal). -/
def segChar : WSeg → Char
  | .raw c => c
  | .quo c => c

/-- Characters of a word after quote removal. -/
def wordChars (w : PWord) : List Char := w.map segChar

/-- Tokenize a script into simple commands. -/
def parseCmds (s : List Char) : Option (List (List PWord)) := pcRun s .norm [] false []

/-- Shell environment: variable bindings in insertion order. -/
abbrev ShEnv := List (List Char × List Char)

/-- Lookup of a shell variable. -/
def envGet : ShEnv → List Char → Option (List Char)
  | [], _ => none
  | kv :: rest, k => if kv.1 = k then some kv.2 else envGet rest k

/-- Assignment of a shell variable: replace in place or append. -/
def envSet : ShEnv → List Char → List Char → ShEnv
  | [], k, v => [(k, v)]
  | kv :: rest, k, v => if kv.1 = k then (k, v) :: rest else kv :: envSet rest k v

/-- Characters allowed inside a shell variable name. -/
def identChar (c : Char) : Bool := c.isAlphanum || c = '_'

/-- Characters allowed to start a shell variable name. -/
def identStart (c : Char) : Bool := c.isAlpha || c = '_'

/-- Valid shell variable names. -/
def validIdent : List Char → Bool
  | [] => false
  | c :: cs => identStart c && cs.all identChar

/-- Value of a pending parameter expansion: a bare dollar stays literal, a
name expands to its value (missing variables expand to the empty string). -/
def flushVar (env : ShEnv) (ident : List Char) : List Char :=
  if ident.isEmpty then ['$'] else (envGet env ident).getD []

/-- Modelled from the spec: parameter expansion over a tokenized word. An
unquoted `$` followed by a maximal run of name characters is replaced by the
value of that variable; quoted characters are literal. Field splitting of the
expanded value and expansion inside double quotes are not modelled (no
generated command line exercises them). -/
def expandGo (env : ShEnv) : Option (List Char) → PWord → List Char
  | none, [] => []
  | some ident, [] => flushVar env ident
  | none, .raw c :: rest =>
      if c = '$' then expandGo env (some []) rest
      else c :: expandGo env none rest
  | none, .quo c :: rest => c :: expandGo env none rest
  | some ident, .raw c :: rest =>
      if identChar c then expandGo env (some (ident ++ [c])) rest
      else if c = '$' then flushVar env ident ++ expandGo env (some []) rest
      else flushVar env ident ++ c :: expandGo env none rest
  | some ident, .quo c :: rest => flushVar env ident ++ c :: expandGo env none rest

/-- Expansion plus quote removal of one word. -/
def expandWord (env : ShEnv) (w : PWord) : List Char := expandGo env none w

/-- Split an assignment word at its first `=`. -/
def splitFirstEq : List Char → Option (List Char × List Char)
  | [] => none
  | c :: cs =>
      if c = '=' then some ([], cs)
      else (splitFirstEq cs).map fun p => (c :: p.1, p.2)

/-- Join echo arguments with single spaces. -/
def joinWithSpace : List (List Char) → List Char
  | [] => []
  | [x] => x
  | x :: y :: xs => x ++ ' ' :: joinWithSpace (y :: xs)

/-- State of the modelled shell: variables and stdout lines produced so far. -/
structure ShellSt where
  env : ShEnv
  out : List (List Char)
deriving DecidableEq

/-- Modelled from the spec: execution of one simple command of the modelled
shell. Blank commands are no-ops, `export NAME=value` updates the
environment, `echo` appends a stdout line; other commands are outside the
model. -/
def execSimpleCmd (st : ShellSt) (ws : List PWord) : Option ShellSt :=
  match ws with
  | [] => some st
  | cmd :: args =>
      let cname := expandWord st.env cmd
      if cname = "export".data then
        match args with
        | [a] =>
            match splitFirstEq (expandWord st.env a) with
            | some kv => some { st with env := envSet st.env kv.1 kv.2 }
            | none => none
        | _ => none
      else if cname = "echo".data then
        some { st with out := st.out ++ [joinWithSpace (args.map (expandWord st.env))] }
      else none

/-- Execution of a command sequence. -/
def execScript : List (List PWord) → ShellSt → Option ShellSt
  | [], st => some st
  | c :: rest, st =>
      match execSimpleCmd st c with
      | some st1 => execScript rest st1
      | none => none

/-- Modelled from the spec: run a full generated command line. The transport
tokenizes it, checks it invokes the non-interactive bash launcher on a single
script argument, executes the script in the modelled shell starting from
`env0`, and reports the stdout lines. -/
def runBashCommandLine (cmdline : List Char) (env0 : ShEnv) : Option (List (List Char)) :=
  match parseCmds cmdline with
  | some [[w1, w2, w3]] =>
      if wordChars w1 = "/usr/bin/bash".data ∧ wordChars w2 = "-c".data then
        match parseCmds (wordChars w3) with
        | some cmds =>
            match execScript cmds { env := env0, out := [] } with
            | some st => some st.out
            | none => none
        | none => none
      else none
  | _ => none

/-- The tokenized form of a `shlex.quote` result: safe words stay as raw
characters, everything else becomes quoted characters. -/
def quoteSegs (v : List Char) : PWord :=
  if v.isEmpty then []
  else if v.all shlexSafeChar then v.map WSeg.raw
  else v.map WSeg.quo

/-- The commands the tokenizer produces for the export prelude of an
environment. -/
def exportCmds (env : List (List Char × List Char)) : List (List PWord) :=
  env.map fun kv =>
    ["export".data.map WSeg.raw, kv.1.map WSeg.raw ++ WSeg.raw '=' :: quoteSegs kv.2]

/- ===================== Process result and error values (from the source) ===================== -/

/-- `ProcessLogLevel` from the source. -/
inductive ProcessLogLevel
  | Silent
  | Short
  | Full
  | Error
deriving DecidableEq

/-- `ProcessError`: the execution context captured for one command; the
rendered human-readable message is derived from exactly these fields. -/
structure ProcessError where
  id : Nat
  command : String
  rc : Int
  cwd : Option String
  env : List (String × String)
  input : Option String
  stdout : String
  stderr : String
  stdout_lines : List String
  stderr_lines : List String
deriving DecidableEq

/-- `ProcessError.__init__`: joins the output line lists. -/
def ProcessError.make (id : Nat) (command : String) (rc : Int) (cwd : Option String)
    (env : List (String × String)) (input : Option String)
    (stdout stderr : List String) : ProcessError :=
  { id := id, command := command, rc := rc, cwd := cwd, env := env, input := input,
    stdout := String.intercalate "\n" stdout, stderr := String.intercalate "\n" stderr,
    stdout_lines := stdout, stderr_lines := stderr }

/-- `ProcessResult`: return code, output in joined and line form, and the
lazily raisable error (`None` is representable, `throw` checks for it). -/
structure ProcessResult where
  rc : Int
  stdout : String
  stderr : String
  stdout_lines : List String
  stderr_lines : List String
  error : Option ProcessError
deriving DecidableEq

/-- `ProcessResult.__init__`. -/
def ProcessResult.make (rc : Int) (stdout stderr : List String)
    (error : Option ProcessError) : ProcessResult :=
  { rc := rc, stdout := String.intercalate "\n" stdout, stderr := String.intercalate "\n" stderr,
    stdout_lines := stdout, stderr_lines := stderr, error := error }

/-- Exceptions of the embedded code. -/
inductive PyExn
  | runtimeError (msg : String)
  | valueError (msg : String)
  | procError (e : ProcessError)
deriving DecidableEq

/-- The exception `ProcessResult.throw` raises: `ValueError` when no error is
set, the stored error otherwise. -/
def ProcessResult.throwOutcome (r : ProcessResult) : PyExn :=
  match r.error with
  | none => .valueError "No error is set."
  | some e => .procError e

/-- `ProcessResult.throw` as a state transformer: it always raises, and the
method body contains no assignment, so the result value is returned
unchanged. -/
def ProcessResult.throwM (r : ProcessResult) : PyExn × ProcessResult :=
  (r.throwOutcome, r)

/- ===================== Process lifecycle (from the source) ===================== -/

/-- Level of an emitted log record. -/
inductive LogLevelKind
  | info
  | error
deriving DecidableEq

/-- Which message template a log record uses (`__msg_execution`,
`__msg_completed_sync`, `__msg_completed_async`). -/
inductive LogMsg
  | executing (id : Nat)
  | completedSync (rc : Int)
  | completedAsync (rc : Int)
deriving DecidableEq

/-- One emitted log record: level, message and the structured `data` payload
(each field present only when the source includes the corresponding key). -/
structure LogRecord where
  level : LogLevelKind
  message : LogMsg
  dataShell : Option String := none
  dataCommand : Option String := none
  dataInput : Option (Option String) := none
  dataCwd : Option (Option String) := none
  dataEnv : Option (List (String × String)) := none
  dataOutput : Option String := none
  dataErrOutput : Option String := none
deriving DecidableEq

/-- State of one `Process`, together with the exit code and drained output
the transport will deliver (the transport is an external collaborator; its
observed behaviour is part of the state for modelling purposes).
`additional_log_data` is not modelled (no claim mentions it); `command`
already holds the dedented and stripped text. -/
structure ProcState where
  id : Nat
  command : String
  cwd : Option String
  env : List (String × String)
  input : Option String
  shell_command : String
  log_level : ProcessLogLevel
  blocking_call : Bool
  in_progress : Bool
  exit_rc : Int
  out_lines : List String
  err_lines : List String
deriving DecidableEq

/-- The fully populated error value captured for a process at wait time. -/
def ProcState.fullError (p : ProcState) : ProcessError :=
  ProcessError.make p.id p.command p.exit_rc p.cwd p.env p.input p.out_lines p.err_lines

/-- Modelled from the spec: `Process._wait` is abstract in the source file
(implemented by concrete transports); per the spec it drains both streams,
collects the return code and produces a `ProcessResult` whose error value is
fully populated from the execution context even on success. -/
def ProcState.doWait (p : ProcState) : ProcessResult :=
  ProcessResult.make p.exit_rc p.out_lines p.err_lines (some p.fullError)

/-- The log records `Process.wait` emits after `_wait` returns, in order: the
error-level record (only at the `Error` level with non-zero rc), then the
informational record selected by blocking mode and level. -/
def ProcState.waitLogRecords (p : ProcState) (result : ProcessResult) : List LogRecord :=
  (if p.log_level = ProcessLogLevel.Error ∧ result.rc ≠ 0 then
    [{ level := .error, message := .completedAsync result.rc,
       dataShell := some p.shell_command, dataCommand := some p.command,
       dataInput := some p.input, dataCwd := some p.cwd, dataEnv := some p.env,
       dataOutput := some result.stdout, dataErrOutput := some result.stderr }]
   else []) ++
  (if p.blocking_call then
    match p.log_level with
    | .Short => [{ level := .info, message := .completedSync result.rc }]
    | .Full => [{ level := .info, message := .completedSync result.rc,
                  dataOutput := some result.stdout, dataErrOutput := some result.stderr }]
    | _ => []
   else
    match p.log_level with
    | .Short => [{ level := .info, message := .completedAsync result.rc,
                   dataShell := some p.shell_command, dataCommand := some p.command,
                   dataInput := some p.input, dataCwd := some p.cwd, dataEnv := some p.env }]
    | .Full => [{ level := .info, message := .completedAsync result.rc,
                  dataShell := some p.shell_command, dataCommand := some p.command,
                  dataInput := some p.input, dataCwd := some p.cwd, dataEnv := some p.env,
                  dataOutput := some result.stdout, dataErrOutput := some result.stderr }]
    | _ => [])

/-- `Process.wait(raise_on_error)`: usage error before `run()`, then `_wait`,
then logging, then the `raise_on_error` decision; returns the raised
exception or the result, plus the emitted log records. -/
def ProcState.wait (p : ProcState) (raise_on_error : Bool) :
    Except PyExn ProcessResult × List LogRecord :=
  if p.in_progress = false then
    (.error (.runtimeError "Calling wait on process that has not yet started."), [])
  else
    let result := p.doWait
    let logs := p.waitLogRecords result
    if raise_on_error ∧ result.rc ≠ 0 then (.error result.throwOutcome, logs)
    else (.ok result, logs)

/-- `Process.run`: emits the execution record at `Short` and `Full` levels,
then starts the process. -/
def ProcState.runStart (p : ProcState) : ProcState × List LogRecord :=
  ({ p with in_progress := true },
   if p.log_level = ProcessLogLevel.Short ∨ p.log_level = ProcessLogLevel.Full then
    [{ level := .info, message := .executing p.id,
       dataShell := some p.shell_command, dataCommand := some p.command,
       dataInput := some p.input, dataCwd := some p.cwd, dataEnv := some p.env }]
   else [])

/-- `Process.__exit__`: leaving a `with` block calls `wait()` with its
default `raise_on_error=True`, whatever happened in the body. -/
def ProcState.exitWith (p : ProcState) : Except PyExn ProcessResult × List LogRecord :=
  p.wait true

/- ===================== Debug override and id generator (from the source) ===================== -/

/-- ASCII model of Python `str.lower`, used on the debug variable value. -/
def lowerAscii (s : String) : String := String.mk (s.data.map Char.toLower)

/-- The log-level override in `Process.__init__`: `MH_CONNECTION_DEBUG`
(default `no`) lowercased and compared against `true`, `yes`, `1`. -/
def effectiveLogLevel (debugVar : Option String) (log_level : ProcessLogLevel) :
    ProcessLogLevel :=
  if lowerAscii (debugVar.getD "no") ∈ ["true", "yes", "1"] then ProcessLogLevel.Full
  else log_level

/-- One step of the shared `itertools.count()` generator `Process._genid`. -/
def genidNext (c : Nat) : Nat × Nat := (c, c + 1)

/-- The ids handed to `n` successive `Process` constructions starting from
counter state `c` (each `__init__` evaluates `next(self._genid) + 1`); the
counter is process-wide, shared by every connection. -/
def processIdsFrom : Nat → Nat → List Nat
  | _, 0 => []
  | c, n + 1 => ((genidNext c).1 + 1) :: processIdsFrom (genidNext c).2 n

/- ===================== Connection layer (from the source) ===================== -/

/-- Python values as far as the `isinstance` guards can distinguish them. -/
inductive PyObj
  | pystr (s : String)
  | pylist (xs : List PyObj)
  | pyint (n : Int)
  | pynone

/-- Python `str()` on the values the model can hold. The rendering of lists
is approximate; no claim depends on it. -/
def pyStr : PyObj → String
  | .pystr s => s
  | .pyint n => toString n
  | .pynone => "None"
  | .pylist _ => "[...]"

/-- State a `Connection` touches: its connected flag and the process-wide id
counter. -/
structure ConnState where
  connected : Bool
  counter : Nat
deriving DecidableEq

/-- `Connection.create_process` followed by `Process.__init__`: consumes one
id from the shared counter and builds a not-yet-started process whose log
level went through the debug override. The transport outcome fields describe
what the external channel will deliver. -/
def createProcess (st : ConnState) (shellCmd : String) (command : String)
    (cwd : Option String) (env : List (String × String)) (input : Option String)
    (log_level : ProcessLogLevel) (blocking_call : Bool) (debugVar : Option String)
    (rc : Int) (out_lines err_lines : List String) : ProcState × ConnState :=
  ({ id := st.counter + 1, command := command, cwd := cwd, env := env, input := input,
     shell_command := shellCmd, log_level := effectiveLogLevel debugVar log_level,
     blocking_call := blocking_call, in_progress := false,
     exit_rc := rc, out_lines := out_lines, err_lines := err_lines },
   { st with counter := st.counter + 1 })

/-- The usage-error message of `Connection.run`. -/
def Connection.runGuardMsg : String :=
  "Parameter command is not a string, did you mean exec() instead of run()?"

/-- The usage-error message of `Connection.async_run`. -/
def Connection.asyncRunGuardMsg : String :=
  "Parameter command is not a string, did you mean async_exec() instead of async_run()?"

/-- The usage-error message of `Connection.exec`. -/
def Connection.execGuardMsg : String :=
  "Parameter argv is not a list, did you mean run() instead of exec()?"

/-- The usage-error message of `Connection.async_exec`. -/
def Connection.asyncExecGuardMsg : String :=
  "Parameter argv is not a list, did you mean async_run() instead of async_exec()?"

/-- `Connection.run`: type guard, `connect()`, `create_process`,
`Process.run`, `Process.wait(raise_on_error)`. -/
def Connection.run (shellCmd : String) (debugVar : Option String) (st : ConnState)
    (command : PyObj) (cwd : Option String) (env : List (String × String))
    (input : Option String) (log_level : ProcessLogLevel) (raise_on_error : Bool)
    (rc : Int) (out_lines err_lines : List String) :
    Except PyExn ProcessResult × ConnState × List LogRecord :=
  match command with
  | .pystr s =>
      let st1 : ConnState := { st with connected := true }
      let pr := createProcess st1 shellCmd s cwd env input log_level true debugVar rc out_lines err_lines
      let started := pr.1.runStart
      let waited := started.1.wait raise_on_error
      (waited.1, pr.2, started.2 ++ waited.2)
  | _ => (.error (.valueError Connection.runGuardMsg), st, [])

/-- `Connection.async_run`: type guard, `connect()`, `create_process`
(non-blocking), `Process.run`; returns the already started process. -/
def Connection.async_run (shellCmd : String) (debugVar : Option String) (st : ConnState)
    (command : PyObj) (cwd : Option String) (env : List (String × String))
    (input : Option String) (log_level : ProcessLogLevel) :
    Except PyExn ProcState × ConnState × List LogRecord :=
  match command with
  | .pystr s =>
      let st1 : ConnState := { st with connected := true }
      let pr := createProcess st1 shellCmd s cwd env input log_level false debugVar 0 [] []
      let started := pr.1.runStart
      (.ok started.1, pr.2, started.2)
  | _ => (.error (.valueError Connection.asyncRunGuardMsg), st, [])

/-- `Connection.exec`: list guard, then stringify and `shlex.join` the
arguments and delegate to `Connection.run`. -/
def Connection.exec (shellCmd : String) (debugVar : Option String) (st : ConnState)
    (argv : PyObj) (cwd : Option String) (env : List (String × String))
    (input : Option String) (log_level : ProcessLogLevel) (raise_on_error : Bool)
    (rc : Int) (out_lines err_lines : List String) :
    Except PyExn ProcessResult × ConnState × List LogRecord :=
  match argv with
  | .pylist xs =>
      Connection.run shellCmd debugVar st
        (.pystr (String.mk (shlexJoin (xs.map fun x => (pyStr x).data))))
        cwd env input log_level raise_on_error rc out_lines err_lines
  | _ => (.error (.valueError Connection.execGuardMsg), st, [])

/-- `Connection.async_exec`: list guard, then stringify and `shlex.join` the
arguments and delegate to `Connection.async_run`. -/
def Connection.async_exec (shellCmd : String) (debugVar : Option String) (st : ConnState)
    (argv : PyObj) (cwd : Option String) (env : List (String × String))
    (input : Option String) (log_level : ProcessLogLevel) :
    Except PyExn ProcState × ConnState × List LogRecord :=
  match argv with
  | .pylist xs =>
      Connection.async_run shellCmd debugVar st
        (.pystr (String.mk (shlexJoin (xs.map fun x => (pyStr x).data))))
        cwd env input log_level
  | _ => (.error (.valueError Connection.asyncExecGuardMsg), st, [])

/- ===================== Helper lemmas ===================== -/

theorem waitLogRecords_error_filter (p : ProcState) (res : ProcessResult) :
    (p.waitLogRecords res).filter (fun r => r.level = LogLevelKind.error) =
      (if p.log_level = ProcessLogLevel.Error ∧ res.rc ≠ 0 then
        [{ level := .error, message := .completedAsync res.rc,
           dataShell := some p.shell_command, dataCommand := some p.command,
           dataInput := some p.input, dataCwd := some p.cwd, dataEnv := some p.env,
           dataOutput := some res.stdout, dataErrOutput := some res.stderr }]
      else []) := by
  cases hl : p.log_level <;> cases hb : p.blocking_call <;>
    by_cases hrc : res.rc = 0 <;>
      simp [ProcState.waitLogRecords, hl, hb, hrc, List.filter]

theorem wait_snd_eq_logs (p : ProcState) (b : Bool) (h : p.in_progress = true) :
    (p.wait b).2 = p.waitLogRecords p.doWait := by
  unfold ProcState.wait
  rw [h]
  by_cases hc : b = true ∧ (p.doWait).rc ≠ 0 <;> simp [hc]

theorem processIdsFrom_mem_lt (c n : Nat) : ∀ x ∈ processIdsFrom c n, c < x := by
  induction n generalizing c with
  | zero => simp [processIdsFrom]
  | succ n ih =>
      intro x hx
      simp only [processIdsFrom, genidNext, List.mem_cons] at hx
      rcases hx with h | h
      · omega
      · have := ih (c + 1) x h
        omega

/- ===================== Claim theorems (simple claims) ===================== -/

/-- C4: `ProcessResult.throw` always raises; it raises `ValueError` exactly
when no error is set and otherwise raises the stored error; a second call
yields the same exception and no field of the result is mutated. -/
theorem processResult_throw_spec (r : ProcessResult) :
    (r.throwM.2 = r) ∧
    (r.throwM.1 = PyExn.valueError "No error is set." ↔ r.error = none) ∧
    (∀ e, r.error = some e → r.throwM.1 = PyExn.procError e) ∧
    (r.throwM.2.throwM.1 = r.throwM.1) := by
  refine ⟨rfl, ?_, ?_, rfl⟩
  · cases h : r.error <;>
      simp [ProcessResult.throwM, ProcessResult.throwOutcome, h]
  · intro e h
    simp [ProcessResult.throwM, ProcessResult.throwOutcome, h]

/-- C4 witness: a result with no error raises `ValueError`, one with an
error raises it, twice identically, with the state unchanged. -/
theorem processResult_throw_spec_witness :
    ((ProcessResult.make 0 [] [] none).throwM.1 = PyExn.valueError "No error is set.") ∧
    ((ProcessResult.make 1 [] [] (some (ProcessError.make 4 "exit 1" 1 none [] none [] []))).throwM.1 =
      PyExn.procError (ProcessError.make 4 "exit 1" 1 none [] none [] [])) :=
  ⟨(processResult_throw_spec (ProcessResult.make 0 [] [] none)).2.1.mpr rfl,
   (processResult_throw_spec (ProcessResult.make 1 [] []
      (some (ProcessError.make 4 "exit 1" 1 none [] none [] [])))).2.2.1 _ rfl⟩

/-- C6: calling `wait` on a process that was never started raises a
`RuntimeError` immediately: no result is produced and no log record is
emitted. -/
theorem wait_before_run_usage_error (p : ProcState) (b : Bool) (h : p.in_progress = false) :
    p.wait b = (.error (.runtimeError "Calling wait on process that has not yet started."), []) := by
  simp [ProcState.wait, h]

/-- C6 witness: a concrete not-started process. -/
theorem wait_before_run_usage_error_witness :
    ProcState.wait ⟨1, "true", none, [], none, "/usr/bin/bash -c", .Full, true, false, 0, [], []⟩ true =
      (.error (.runtimeError "Calling wait on process that has not yet started."), []) :=
  wait_before_run_usage_error _ true rfl

/-- C8: when the debug variable holds (case-insensitively) `true`, `yes` or
`1`, the effective log level is `Full` whatever the per-call level; for any
other value, and when the variable is unset, the per-call level is kept. -/
theorem mh_connection_debug_override (v : Option String) (ll : ProcessLogLevel) :
    (∀ s, v = some s → lowerAscii s ∈ ["true", "yes", "1"] →
      effectiveLogLevel v ll = ProcessLogLevel.Full) ∧
    (∀ s, v = some s → lowerAscii s ∉ ["true", "yes", "1"] →
      effectiveLogLevel v ll = ll) ∧
    (v = none → effectiveLogLevel v ll = ll) := by
  refine ⟨?_, ?_, ?_⟩
  · intro s hv hs
    subst hv
    simp [effectiveLogLevel, hs]
  · intro s hv hs
    subst hv
    simp [effectiveLogLevel, hs]
  · intro hv
    subst hv
    rw [effectiveLogLevel, if_neg (by decide)]

/-- C8 witness: a mixed-case `YeS` forces `Full` over `Silent`; an
unrecognised value and an unset variable keep the requested level. -/
theorem mh_connection_debug_override_witness :
    effectiveLogLevel (some "YeS") ProcessLogLevel.Silent = ProcessLogLevel.Full ∧
    effectiveLogLevel (some "nope") ProcessLogLevel.Silent = ProcessLogLevel.Silent ∧
    effectiveLogLevel none ProcessLogLevel.Short = ProcessLogLevel.Short :=
  ⟨(mh_connection_debug_override (some "YeS") .Silent).1 "YeS" rfl (by decide),
   (mh_connection_debug_override (some "nope") .Silent).2.1 "nope" rfl (by decide),
   (mh_connection_debug_override none .Short).2.2 rfl⟩

/-- C5: the ids handed out by the shared generator over any run of `n`
successive `Process` constructions are pairwise strictly increasing in
construction order, hence unique. -/
theorem process_ids_strictly_increasing (c n : Nat) :
    List.Pairwise (fun a b => a < b) (processIdsFrom c n) ∧ (processIdsFrom c n).Nodup := by
  have hp : List.Pairwise (fun a b => a < b) (processIdsFrom c n) := by
    induction n generalizing c with
    | zero => simp [processIdsFrom]
    | succ n ih =>
        simp only [processIdsFrom, genidNext, List.pairwise_cons]
        refine ⟨?_, ih (c + 1)⟩
        intro x hx
        have := processIdsFrom_mem_lt (c + 1) n x hx
        omega
  exact ⟨hp, hp.imp Nat.ne_of_lt⟩

/-- C7: `run` and `async_run` reject every non-string command with a
`ValueError`, `exec` and `async_exec` reject every non-list argument with a
`ValueError`, and the four messages are pairwise distinct, each naming the
sibling method. -/
theorem connection_type_guards :
    (∀ sc dv st c cwd env inp ll b rc ol el, (∀ s, c ≠ PyObj.pystr s) →
      Connection.run sc dv st c cwd env inp ll b rc ol el =
        (.error (.valueError Connection.runGuardMsg), st, [])) ∧
    (∀ sc dv st c cwd env inp ll, (∀ s, c ≠ PyObj.pystr s) →
      Connection.async_run sc dv st c cwd env inp ll =
        (.error (.valueError Connection.asyncRunGuardMsg), st, [])) ∧
    (∀ sc dv st a cwd env inp ll b rc ol el, (∀ xs, a ≠ PyObj.pylist xs) →
      Connection.exec sc dv st a cwd env inp ll b rc ol el =
        (.error (.valueError Connection.execGuardMsg), st, [])) ∧
    (∀ sc dv st a cwd env inp ll, (∀ xs, a ≠ PyObj.pylist xs) →
      Connection.async_exec sc dv st a cwd env inp ll =
        (.error (.valueError Connection.asyncExecGuardMsg), st, [])) ∧
    [Connection.runGuardMsg, Connection.asyncRunGuardMsg,
     Connection.execGuardMsg, Connection.asyncExecGuardMsg].Nodup := by
  refine ⟨?_, ?_, ?_, ?_, by decide⟩
  · intro sc dv st c cwd env inp ll b rc ol el h
    cases c with
    | pystr s => exact absurd rfl (h s)
    | pylist xs => rfl
    | pyint n => rfl
    | pynone => rfl
  · intro sc dv st c cwd env inp ll h
    cases c with
    | pystr s => exact absurd rfl (h s)
    | pylist xs => rfl
    | pyint n => rfl
    | pynone => rfl
  · intro sc dv st a cwd env inp ll b rc ol el h
    cases a with
    | pylist xs => exact absurd rfl (h xs)
    | pystr s => rfl
    | pyint n => rfl
    | pynone => rfl
  · intro sc dv st a cwd env inp ll h
    cases a with
    | pylist xs => exact absurd rfl (h xs)
    | pystr s => rfl
    | pyint n => rfl
    | pynone => rfl

/-- C7 witness: an int command rejected by `run`, a string rejected by
`exec`. -/
theorem connection_type_guards_witness :
    Connection.run "/usr/bin/bash -c" none ⟨false, 0⟩ (PyObj.pyint 7) none [] none .Full true 0 [] [] =
      (.error (.valueError Connection.runGuardMsg), ⟨false, 0⟩, []) ∧
    Connection.exec "/usr/bin/bash -c" none ⟨false, 0⟩ (PyObj.pystr "ls") none [] none .Full true 0 [] [] =
      (.error (.valueError Connection.execGuardMsg), ⟨false, 0⟩, []) :=
  ⟨connection_type_guards.1 _ _ _ _ _ _ _ _ _ _ _ _ (fun s h => PyObj.noConfusion h),
   connection_type_guards.2.2.1 _ _ _ _ _ _ _ _ _ _ _ _ (fun xs h => PyObj.noConfusion h)⟩

/-- C10: the type guards fire before anything else: on a wrongly-typed
argument every one of the four methods leaves the connected flag and the id
counter exactly as they were, emits no log record, and the raised exception
is a `ValueError`. -/
theorem guard_errors_are_atomic :
    (∀ sc dv st c cwd env inp ll b rc ol el, (∀ s, c ≠ PyObj.pystr s) →
      (Connection.run sc dv st c cwd env inp ll b rc ol el).2.1.connected = st.connected ∧
      (Connection.run sc dv st c cwd env inp ll b rc ol el).2.1.counter = st.counter ∧
      (Connection.run sc dv st c cwd env inp ll b rc ol el).2.2 = [] ∧
      ∃ m, (Connection.run sc dv st c cwd env inp ll b rc ol el).1 = .error (.valueError m)) ∧
    (∀ sc dv st c cwd env inp ll, (∀ s, c ≠ PyObj.pystr s) →
      (Connection.async_run sc dv st c cwd env inp ll).2.1.connected = st.connected ∧
      (Connection.async_run sc dv st c cwd env inp ll).2.1.counter = st.counter ∧
      (Connection.async_run sc dv st c cwd env inp ll).2.2 = [] ∧
      ∃ m, (Connection.async_run sc dv st c cwd env inp ll).1 = .error (.valueError m)) ∧
    (∀ sc dv st a cwd env inp ll b rc ol el, (∀ xs, a ≠ PyObj.pylist xs) →
      (Connection.exec sc dv st a cwd env inp ll b rc ol el).2.1.connected = st.connected ∧
      (Connection.exec sc dv st a cwd env inp ll b rc ol el).2.1.counter = st.counter ∧
      (Connection.exec sc dv st a cwd env inp ll b rc ol el).2.2 = [] ∧
      ∃ m, (Connection.exec sc dv st a cwd env inp ll b rc ol el).1 = .error (.valueError m)) ∧
    (∀ sc dv st a cwd env inp ll, (∀ xs, a ≠ PyObj.pylist xs) →
      (Connection.async_exec sc dv st a cwd env inp ll).2.1.connected = st.connected ∧
      (Connection.async_exec sc dv st a cwd env inp ll).2.1.counter = st.counter ∧
      (Connection.async_exec sc dv st a cwd env inp ll).2.2 = [] ∧
      ∃ m, (Connection.async_exec sc dv st a cwd env inp ll).1 = .error (.valueError m)) := by
  refine ⟨?_, ?_, ?_, ?_⟩
  · intro sc dv st c cwd env inp ll b rc ol el h
    cases c with
    | pystr s => exact absurd rfl (h s)
    | pylist xs => exact ⟨rfl, rfl, rfl, _, rfl⟩
    | pyint n => exact ⟨rfl, rfl, rfl, _, rfl⟩
    | pynone => exact ⟨rfl, rfl, rfl, _, rfl⟩
  · intro sc dv st c cwd env inp ll h
    cases c with
    | pystr s => exact absurd rfl (h s)
    | pylist xs => exact ⟨rfl, rfl, rfl, _, rfl⟩
    | pyint n => exact ⟨rfl, rfl, rfl, _, rfl⟩
    | pynone => exact ⟨rfl, rfl, rfl, _, rfl⟩
  · intro sc dv st a cwd env inp ll b rc ol el h
    cases a with
    | pylist xs => exact absurd rfl (h xs)
    | pystr s => exact ⟨rfl, rfl, rfl, _, rfl⟩
    | pyint n => exact ⟨rfl, rfl, rfl, _, rfl⟩
    | pynone => exact ⟨rfl, rfl, rfl, _, rfl⟩
  · intro sc dv st a cwd env inp ll h
    cases a with
    | pylist xs => exact absurd rfl (h xs)
    | pystr s => exact ⟨rfl, rfl, rfl, _, rfl⟩
    | pyint n => exact ⟨rfl, rfl, rfl, _, rfl⟩
    | pynone => exact ⟨rfl, rfl, rfl, _, rfl⟩

/-- C10 witness: `async_run` on `None` leaves a fresh connection state
untouched. -/
theorem guard_errors_are_atomic_witness :
    (Connection.async_run "/usr/bin/bash -c" none ⟨false, 41⟩ PyObj.pynone none [] none .Full).2.1.connected = false ∧
    (Connection.async_run "/usr/bin/bash -c" none ⟨false, 41⟩ PyObj.pynone none [] none .Full).2.1.counter = 41 :=
  ⟨(guard_errors_are_atomic.2.1 _ _ _ _ _ _ _ _ (fun s h => PyObj.noConfusion h)).1,
   (guard_errors_are_atomic.2.1 _ _ _ _ _ _ _ _ (fun s h => PyObj.noConfusion h)).2.1⟩

/-- C9: leaving a `with` block over a started process whose command exited
non-zero raises the captured `ProcessError`, because `__exit__` calls
`wait()` with its default `raise_on_error=True`. -/
theorem exit_raises_on_nonzero_rc (p : ProcState) (h1 : p.in_progress = true)
    (h2 : p.exit_rc ≠ 0) :
    (p.exitWith).1 = .error (.procError p.fullError) := by
  unfold ProcState.exitWith ProcState.wait
  rw [h1]
  simp [ProcState.doWait, ProcessResult.make, ProcessResult.throwOutcome, h2]

/-- C9 witness: a started process with exit code 3. -/
theorem exit_raises_on_nonzero_rc_witness :
    (ProcState.exitWith ⟨5, "exit 3", none, [], none, "/usr/bin/bash -c", .Full, false, true, 3, [], []⟩).1 =
      .error (.procError (ProcState.fullError
        ⟨5, "exit 3", none, [], none, "/usr/bin/bash -c", .Full, false, true, 3, [], []⟩)) :=
  exit_raises_on_nonzero_rc _ rfl (by decide)

/-- C3: for a started process, `wait(raise_on_error)` raises the captured
error exactly when the flag is set and the return code is non-zero; in every
other case it returns the result, whose error value is fully populated from
the execution context even when the return code is zero. -/
theorem wait_raise_on_error_spec (p : ProcState) (b : Bool) (h : p.in_progress = true) :
    (b = true ∧ p.exit_rc ≠ 0 → (p.wait b).1 = .error (.procError p.fullError)) ∧
    (b = false ∨ p.exit_rc = 0 →
      (p.wait b).1 = .ok p.doWait ∧
      p.doWait.error = some p.fullError ∧
      p.fullError.id = p.id ∧ p.fullError.command = p.command ∧
      p.fullError.rc = p.exit_rc ∧ p.fullError.cwd = p.cwd ∧
      p.fullError.env = p.env ∧ p.fullError.input = p.input ∧
      p.fullError.stdout_lines = p.out_lines ∧ p.fullError.stderr_lines = p.err_lines) := by
  constructor
  · rintro ⟨hb, hrc⟩
    subst hb
    unfold ProcState.wait
    rw [h]
    simp [ProcState.doWait, ProcessResult.make, ProcessResult.throwOutcome, hrc]
  · intro hb
    refine ⟨?_, rfl, rfl, rfl, rfl, rfl, rfl, rfl, rfl, rfl⟩
    unfold ProcState.wait
    rw [h]
    rcases hb with hb | hb
    · subst hb
      simp
    · simp [ProcState.doWait, ProcessResult.make, hb]

/-- C3 witness: with the flag set and return code 0, `wait` returns the
result and its error is fully populated. -/
theorem wait_raise_on_error_spec_witness :
    (ProcState.wait ⟨6, "echo hello", none, [], none, "/usr/bin/bash -c", .Full, true, true, 0, ["hello"], []⟩ true).1 =
      .ok (ProcState.doWait ⟨6, "echo hello", none, [], none, "/usr/bin/bash -c", .Full, true, true, 0, ["hello"], []⟩) ∧
    (ProcState.doWait ⟨6, "echo hello", none, [], none, "/usr/bin/bash -c", .Full, true, true, 0, ["hello"], []⟩).error =
      some (ProcState.fullError ⟨6, "echo hello", none, [], none, "/usr/bin/bash -c", .Full, true, true, 0, ["hello"], []⟩) :=
  ⟨((wait_raise_on_error_spec _ true rfl).2 (Or.inr rfl)).1,
   ((wait_raise_on_error_spec _ true rfl).2 (Or.inr rfl)).2.1⟩

/-- C2 counterexample: a started process with return code 1 and log level
`Full` emits no error-level record at all, refuting the claim that a failing
process always emits one error record regardless of the configured level. -/
theorem wait_error_record_cex :
    (ProcState.in_progress ⟨9, "exit 1", none, [], none, "/usr/bin/bash -c", .Full, true, true, 1, [], []⟩ = true) ∧
    (ProcState.exit_rc ⟨9, "exit 1", none, [], none, "/usr/bin/bash -c", .Full, true, true, 1, [], []⟩ = 1) ∧
    ((ProcState.wait ⟨9, "exit 1", none, [], none, "/usr/bin/bash -c", .Full, true, true, 1, [], []⟩ true).2.filter
        (fun r => r.level = LogLevelKind.error) = []) := by
  refine ⟨rfl, rfl, ?_⟩
  decide

/-- C2 (amended): a failing process emits exactly one error-level record,
carrying the full execution context plus output, precisely when the
configured log level is `Error` and the return code is non-zero; at the
other levels, and whenever the return code is zero, no error-level record is
emitted. -/
theorem wait_error_record_iff (p : ProcState) (b : Bool) (h : p.in_progress = true) :
    (p.wait b).2.filter (fun r => r.level = LogLevelKind.error) =
      (if p.log_level = ProcessLogLevel.Error ∧ p.exit_rc ≠ 0 then
        [{ level := .error, message := .completedAsync p.exit_rc,
           dataShell := some p.shell_command, dataCommand := some p.command,
           dataInput := some p.input, dataCwd := some p.cwd, dataEnv := some p.env,
           dataOutput := some (String.intercalate "\n" p.out_lines),
           dataErrOutput := some (String.intercalate "\n" p.err_lines) }]
      else []) := by
  rw [wait_snd_eq_logs p b h, waitLogRecords_error_filter]
  simp [ProcState.doWait, ProcessResult.make]

/-- C2 witness: at the `Error` level with return code 2 exactly the one
error record appears. -/
theorem wait_error_record_iff_witness :
    (ProcState.wait ⟨8, "exit 2", none, [], none, "/usr/bin/bash -c", .Error, true, true, 2, [], []⟩ false).2.filter
        (fun r => r.level = LogLevelKind.error) =
      (if ProcessLogLevel.Error = ProcessLogLevel.Error ∧ (2 : Int) ≠ 0 then
        [{ level := .error, message := .completedAsync 2,
           dataShell := some "/usr/bin/bash -c", dataCommand := some "exit 2",
           dataInput := some none, dataCwd := some none, dataEnv := some [],
           dataOutput := some (String.intercalate "\n" []),
           dataErrOutput := some (String.intercalate "\n" []) }]
      else []) :=
  wait_error_record_iff ⟨8, "exit 2", none, [], none, "/usr/bin/bash -c", .Error, true, true, 2, [], []⟩ false rfl

/- ===================== Lemmas for the command-line round trip (C1) ===================== -/

theorem identChar_ne (c : Char) (h : identChar c = true) :
    c ≠ '\n' ∧ c ≠ ' ' ∧ c ≠ '\t' ∧ c ≠ '\x27' ∧ c ≠ '"' ∧ c ≠ '\\' := by
  refine ⟨?_, ?_, ?_, ?_, ?_, ?_⟩ <;> (rintro rfl; revert h; decide)

theorem identStart_ne (c : Char) (h : identStart c = true) :
    c ≠ '\n' ∧ c ≠ ' ' ∧ c ≠ '\t' ∧ c ≠ '\x27' ∧ c ≠ '"' ∧ c ≠ '\\' := by
  refine ⟨?_, ?_, ?_, ?_, ?_, ?_⟩ <;> (rintro rfl; revert h; decide)

theorem shlexSafeChar_ne (c : Char) (h : shlexSafeChar c = true) :
    c ≠ '\n' ∧ c ≠ ' ' ∧ c ≠ '\t' ∧ c ≠ '\x27' ∧ c ≠ '"' ∧ c ≠ '\\' := by
  refine ⟨?_, ?_, ?_, ?_, ?_, ?_⟩ <;> (rintro rfl; revert h; decide)

theorem pcRun_plain_step (c : Char) (cs : List Char) (cur : PWord) (started : Bool)
    (cmd : List PWord)
    (h : c ≠ '\n' ∧ c ≠ ' ' ∧ c ≠ '\t' ∧ c ≠ '\x27' ∧ c ≠ '"' ∧ c ≠ '\\') :
    pcRun (c :: cs) .norm cur started cmd = pcRun cs .norm (cur ++ [.raw c]) true cmd := by
  obtain ⟨h1, h2, h3, h4, h5, h6⟩ := h
  simp [pcRun, h1, h2, h3, h4, h5, h6]

theorem escSingleQuotes_insingle (s : List Char) (rest : List Char) (cur : PWord)
    (started : Bool) (cmd : List PWord) :
    pcRun (escSingleQuotes s ++ '\x27' :: rest) .insingle cur started cmd =
      pcRun rest .norm (cur ++ s.map WSeg.quo) true cmd := by
  induction s generalizing cur started with
  | nil => simp [escSingleQuotes, pcRun]
  | cons c s ih =>
      by_cases hc : c = '\x27'
      · subst hc
        have hstep : pcRun (escSingleQuotes ('\x27' :: s) ++ '\x27' :: rest) .insingle cur started cmd =
            pcRun (escSingleQuotes s ++ '\x27' :: rest) .insingle (cur ++ [.quo '\x27']) true cmd := rfl
        rw [hstep, ih]
        simp
      · have hesc : escSingleQuotes (c :: s) = c :: escSingleQuotes s := by
          simp [escSingleQuotes, hc]
        rw [hesc, List.cons_append]
        have hstep : pcRun (c :: (escSingleQuotes s ++ '\x27' :: rest)) .insingle cur started cmd =
            pcRun (escSingleQuotes s ++ '\x27' :: rest) .insingle (cur ++ [.quo c]) started cmd := by
          simp [pcRun, hc]
        rw [hstep, ih]
        simp

theorem pcRun_plain_run (w : List Char) (rest : List Char) (cur : PWord) (started : Bool)
    (cmd : List PWord)
    (hw : ∀ c ∈ w, c ≠ '\n' ∧ c ≠ ' ' ∧ c ≠ '\t' ∧ c ≠ '\x27' ∧ c ≠ '"' ∧ c ≠ '\\') :
    pcRun (w ++ rest) .norm cur started cmd =
      pcRun rest .norm (cur ++ w.map WSeg.raw) (started || !w.isEmpty) cmd := by
  induction w generalizing cur started with
  | nil => simp
  | cons c w ih =>
      rw [List.cons_append, pcRun_plain_step c _ cur started cmd (hw c (List.mem_cons_self c w)),
        ih _ _ (fun d hd => hw d (List.mem_cons_of_mem c hd))]
      simp

theorem pcRun_shlexQuote (v : List Char) (rest : List Char) (cur : PWord) (cmd : List PWord) :
    pcRun (shlexQuote v ++ rest) .norm cur true cmd =
      pcRun rest .norm (cur ++ quoteSegs v) true cmd := by
  by_cases hv : v.isEmpty
  · have hnil : v = [] := by
      cases v with
      | nil => rfl
      | cons a as => simp [List.isEmpty] at hv
    subst hnil
    simp [shlexQuote, quoteSegs, pcRun]
  · by_cases hsafe : v.all shlexSafeChar
    · have hq : shlexQuote v = v := by simp [shlexQuote, hv, hsafe]
      have hqs : quoteSegs v = v.map WSeg.raw := by simp [quoteSegs, hv, hsafe]
      rw [hq, hqs, pcRun_plain_run v rest cur true cmd
        (fun c hc => shlexSafeChar_ne c (by
          have := List.all_eq_true.mp hsafe c hc
          exact this))]
      simp
    · have hq : shlexQuote v = '\x27' :: (escSingleQuotes v ++ ['\x27']) := by
        simp [shlexQuote, hv, hsafe]
      have hqs : quoteSegs v = v.map WSeg.quo := by simp [quoteSegs, hv, hsafe]
      rw [hq, hqs, List.cons_append]
      have hstep : pcRun ('\x27' :: ((escSingleQuotes v ++ ['\x27']) ++ rest)) .norm cur true cmd =
          pcRun ((escSingleQuotes v ++ ['\x27']) ++ rest) .insingle cur true cmd := rfl
      rw [hstep, List.append_assoc]
      exact escSingleQuotes_insingle v rest cur true cmd

theorem validIdent_forall (k : List Char) (hk : validIdent k = true) :
    k ≠ [] ∧ ∀ c ∈ k, identStart c = true ∨ identChar c = true := by
  cases k with
  | nil => simp [validIdent] at hk
  | cons c cs =>
      rw [validIdent, Bool.and_eq_true, List.all_eq_true] at hk
      refine ⟨by simp, ?_⟩
      intro d hd
      rcases List.mem_cons.mp hd with rfl | hd
      · exact Or.inl hk.1
      · exact Or.inr (hk.2 d hd)

theorem identStart_ne_dollar (c : Char) (h : identStart c = true) : c ≠ '$' := by
  rintro rfl; revert h; decide

theorem identChar_ne_dollar (c : Char) (h : identChar c = true) : c ≠ '$' := by
  rintro rfl; revert h; decide

theorem identStart_ne_eq (c : Char) (h : identStart c = true) : c ≠ '=' := by
  rintro rfl; revert h; decide

theorem identChar_ne_eq (c : Char) (h : identChar c = true) : c ≠ '=' := by
  rintro rfl; revert h; decide

theorem pcRun_exportLine (k v : List Char) (rest : List Char) (hk : validIdent k = true) :
    pcRun ("export ".data ++ (k ++ ('=' :: (shlexQuote v ++ ('\n' :: rest))))) .norm [] false [] =
      (pcRun rest .norm [] false []).map
        (fun r => ["export".data.map WSeg.raw, k.map WSeg.raw ++ WSeg.raw '=' :: quoteSegs v] :: r) := by
  obtain ⟨hkne, hkmem⟩ := validIdent_forall k hk
  have hke : k.isEmpty = false := by
    cases k with
    | nil => exact absurd rfl hkne
    | cons a as => rfl
  have h7 : pcRun ("export ".data ++ (k ++ ('=' :: (shlexQuote v ++ ('\n' :: rest))))) .norm [] false [] =
      pcRun (k ++ ('=' :: (shlexQuote v ++ ('\n' :: rest)))) .norm [] false
        ["export".data.map WSeg.raw] := rfl
  rw [h7, pcRun_plain_run k _ [] false _
    (fun c hc => (hkmem c hc).elim (identStart_ne c) (identChar_ne c)), hke]
  have heq : pcRun ('=' :: (shlexQuote v ++ ('\n' :: rest))) .norm ([] ++ k.map WSeg.raw)
        (false || !false) ["export".data.map WSeg.raw] =
      pcRun (shlexQuote v ++ ('\n' :: rest)) .norm (([] ++ k.map WSeg.raw) ++ [.raw '='])
        true ["export".data.map WSeg.raw] := rfl
  rw [heq, pcRun_shlexQuote]
  have hnl : pcRun ('\n' :: rest) .norm ((([] ++ k.map WSeg.raw) ++ [WSeg.raw '=']) ++ quoteSegs v)
        true ["export".data.map WSeg.raw] =
      (pcRun rest .norm [] false []).map
        (fun r => ["export".data.map WSeg.raw,
          (([] ++ k.map WSeg.raw) ++ [WSeg.raw '=']) ++ quoteSegs v] :: r) := rfl
  rw [hnl]
  simp [List.append_assoc]

theorem pcRun_envLines (E : List (List Char × List Char)) (S : List Char)
    (hk : ∀ kv ∈ E, validIdent kv.1 = true) :
    pcRun (Bash.envLines E ++ '\n' :: S) .norm [] false [] =
      (pcRun S .norm [] false []).map (fun r => exportCmds E ++ ([] :: r)) := by
  induction E with
  | nil =>
      have h0 : pcRun ('\n' :: S) .norm [] false [] =
          (pcRun S .norm [] false []).map (fun r => [] :: r) := rfl
      simp [Bash.envLines, exportCmds, h0]
  | cons kv E ih =>
      have hmem : validIdent kv.1 = true := hk kv (List.mem_cons_self kv E)
      have ih2 := ih (fun x hx => hk x (List.mem_cons_of_mem kv hx))
      have hassoc : Bash.envLines (kv :: E) ++ '\n' :: S =
          "export ".data ++ (kv.1 ++ ('=' :: (shlexQuote kv.2 ++ ('\n' :: (Bash.envLines E ++ '\n' :: S))))) := by
        simp [Bash.envLines, List.append_assoc]
      rw [hassoc, pcRun_exportLine kv.1 kv.2 _ hmem, ih2, Option.map_map]
      simp [exportCmds, Function.comp_def]

theorem wordChars_map_raw (w : List Char) : wordChars (w.map WSeg.raw) = w := by
  induction w with
  | nil => rfl
  | cons c w ih => simp [wordChars, segChar] at ih ⊢; exact ih

theorem wordChars_map_quo (w : List Char) : wordChars (w.map WSeg.quo) = w := by
  induction w with
  | nil => rfl
  | cons c w ih => simp [wordChars, segChar] at ih ⊢; exact ih

theorem wordChars_quoteSegs (v : List Char) : wordChars (quoteSegs v) = v := by
  unfold quoteSegs
  split_ifs with h1 h2
  · cases v with
    | nil => rfl
    | cons a as => simp [List.isEmpty] at h1
  · exact wordChars_map_raw v
  · exact wordChars_map_quo v

theorem parse_build_command_line (script : List Char) (cwd : Option (List Char))
    (env : List (List Char × List Char)) :
    (parseCmds (Bash.build_command_line script cwd env)).map
        (fun cmds => cmds.map (fun c => c.map wordChars)) =
      some [["/usr/bin/bash".data, "-c".data, Bash.add_cwd_and_env script cwd env]] := by
  have h0 : parseCmds (Bash.build_command_line script cwd env) =
      pcRun (escSingleQuotes (Bash.add_cwd_and_env script cwd env) ++ '\x27' :: []) .insingle []
        false ["/usr/bin/bash".data.map WSeg.raw, "-c".data.map WSeg.raw] := rfl
  rw [h0, escSingleQuotes_insingle]
  have h1 : pcRun ([] : List Char) .norm
        ([] ++ (Bash.add_cwd_and_env script cwd env).map WSeg.quo) true
        ["/usr/bin/bash".data.map WSeg.raw, "-c".data.map WSeg.raw] =
      some [["/usr/bin/bash".data.map WSeg.raw, "-c".data.map WSeg.raw,
             [] ++ (Bash.add_cwd_and_env script cwd env).map WSeg.quo]] := rfl
  rw [h1]
  simp [wordChars_map_raw, wordChars_map_quo]
  decide

theorem parse_add_cwd_and_env (S : List Char) (E : List (List Char × List Char))
    (hk : ∀ kv ∈ E, validIdent kv.1 = true) (hE : E ≠ []) :
    parseCmds (Bash.add_cwd_and_env S none E) =
      (parseCmds S).map (fun r => exportCmds E ++ ([] :: r)) := by
  obtain ⟨kv, E1, rfl⟩ : ∃ kv E1, E = kv :: E1 := by
    cases E with
    | nil => exact absurd rfl hE
    | cons a b => exact ⟨a, b, rfl⟩
  have hne : (Bash.envLines (kv :: E1)).isEmpty = false := rfl
  have hshape : Bash.add_cwd_and_env S none (kv :: E1) =
      Bash.envLines (kv :: E1) ++ '\n' :: S := by
    simp [Bash.add_cwd_and_env, hne]
  rw [hshape]
  exact pcRun_envLines _ S hk

theorem expandGo_no_dollar (env : ShEnv) (w : PWord) :
    (∀ s ∈ w, s ≠ WSeg.raw '$') → expandGo env none w = wordChars w := by
  induction w with
  | nil => intro _; rfl
  | cons s w ih =>
      intro h
      have ht := ih (fun x hx => h x (List.mem_cons_of_mem s hx))
      cases s with
      | raw c =>
          have hc : c ≠ '$' := by
            intro hcc
            exact h (WSeg.raw c) (List.mem_cons_self _ w) (by rw [hcc])
          simp [expandGo, hc, ht, wordChars, segChar]
      | quo c => simp [expandGo, ht, wordChars, segChar]

theorem quoteSegs_no_dollar (v : List Char) : ∀ s ∈ quoteSegs v, s ≠ WSeg.raw '$' := by
  intro s hs
  unfold quoteSegs at hs
  split_ifs at hs with h1 h2
  · simp at hs
  · obtain ⟨c, hc, rfl⟩ := List.mem_map.mp hs
    have hsafe := List.all_eq_true.mp h2 c hc
    intro hcon
    injection hcon with hcc
    subst hcc
    revert hsafe
    decide
  · obtain ⟨c, hc, rfl⟩ := List.mem_map.mp hs
    intro hcon
    exact WSeg.noConfusion hcon

theorem splitFirstEq_assign (k v : List Char) (hk : ∀ c ∈ k, c ≠ '=') :
    splitFirstEq (k ++ '=' :: v) = some (k, v) := by
  induction k with
  | nil => simp [splitFirstEq]
  | cons c k ih =>
      have hc : c ≠ '=' := hk c (List.mem_cons_self c k)
      simp [splitFirstEq, hc, ih (fun d hd => hk d (List.mem_cons_of_mem c hd))]

theorem execSimpleCmd_export (st : ShellSt) (k v : List Char) (hk : validIdent k = true) :
    execSimpleCmd st ["export".data.map WSeg.raw, k.map WSeg.raw ++ WSeg.raw '=' :: quoteSegs v] =
      some { st with env := envSet st.env k v } := by
  have hkm := (validIdent_forall k hk).2
  have hnd : ∀ s ∈ (k.map WSeg.raw ++ WSeg.raw '=' :: quoteSegs v), s ≠ WSeg.raw '$' := by
    intro s hs
    rcases List.mem_append.mp hs with hs | hs
    · obtain ⟨c, hc, rfl⟩ := List.mem_map.mp hs
      intro hcon
      injection hcon with hcc
      subst hcc
      rcases hkm _ hc with h | h
      · exact identStart_ne_dollar _ h rfl
      · exact identChar_ne_dollar _ h rfl
    · rcases List.mem_cons.mp hs with rfl | hs
      · intro hcon
        injection hcon with hcc
        exact absurd hcc (by decide)
      · exact quoteSegs_no_dollar v s hs
  have hkeq : ∀ c ∈ k, c ≠ '=' := by
    intro c hc
    rcases hkm c hc with h | h
    · exact identStart_ne_eq c h
    · exact identChar_ne_eq c h
  have hx : expandWord st.env (k.map WSeg.raw ++ WSeg.raw '=' :: quoteSegs v) = k ++ '=' :: v := by
    rw [expandWord, expandGo_no_dollar st.env _ hnd, wordChars, List.map_append]
    rw [show List.map segChar (k.map WSeg.raw) = wordChars (k.map WSeg.raw) from rfl,
      wordChars_map_raw]
    rw [show List.map segChar (WSeg.raw '=' :: quoteSegs v) =
      '=' :: wordChars (quoteSegs v) from rfl]
    rw [wordChars_quoteSegs]
  simp [execSimpleCmd, hx, splitFirstEq_assign k v hkeq]
  rfl

theorem execScript_cons (st st1 : ShellSt) (c : List PWord) (rest : List (List PWord))
    (h : execSimpleCmd st c = some st1) :
    execScript (c :: rest) st = execScript rest st1 := by
  simp [execScript, h]

theorem execScript_exportCmds (E : List (List Char × List Char)) :
    ∀ env0 out0, (∀ kv ∈ E, validIdent kv.1 = true) →
    execScript (exportCmds E ++ [[]]) { env := env0, out := out0 } =
      some { env := E.foldl (fun e kv => envSet e kv.1 kv.2) env0, out := out0 } := by
  induction E with
  | nil => intro env0 out0 _; rfl
  | cons kv E ih =>
      intro env0 out0 hk
      have hhead : execSimpleCmd { env := env0, out := out0 }
          ["export".data.map WSeg.raw, kv.1.map WSeg.raw ++ WSeg.raw '=' :: quoteSegs kv.2] =
          some { env := envSet env0 kv.1 kv.2, out := out0 } :=
        execSimpleCmd_export _ _ _ (hk kv (List.mem_cons_self kv E))
      rw [show exportCmds (kv :: E) ++ [[]] =
          ["export".data.map WSeg.raw, kv.1.map WSeg.raw ++ WSeg.raw '=' :: quoteSegs kv.2] ::
            (exportCmds E ++ [[]]) from rfl]
      rw [execScript_cons _ _ _ _ hhead,
        ih (envSet env0 kv.1 kv.2) out0 (fun x hx => hk x (List.mem_cons_of_mem kv hx))]
      rfl

theorem envGet_envSet_self (e : ShEnv) (k v : List Char) :
    envGet (envSet e k v) k = some v := by
  induction e with
  | nil => simp [envSet, envGet]
  | cons kv e ih =>
      by_cases h : kv.1 = k
      · simp [envSet, h, envGet]
      · simp [envSet, h, envGet, ih]

theorem envGet_envSet_other (e : ShEnv) (k k1 v : List Char) (h : k1 ≠ k) :
    envGet (envSet e k v) k1 = envGet e k1 := by
  induction e with
  | nil => simp [envSet, envGet, Ne.symm h]
  | cons kv e ih =>
      by_cases h2 : kv.1 = k
      · subst h2
        simp [envSet, envGet, Ne.symm h]
      · simp [envSet, h2, envGet, ih]

theorem envGet_foldl_other (E : List (List Char × List Char)) :
    ∀ (e : ShEnv) (k : List Char), (∀ kv ∈ E, kv.1 ≠ k) →
    envGet (E.foldl (fun a kv => envSet a kv.1 kv.2) e) k = envGet e k := by
  induction E with
  | nil => intro e k _; rfl
  | cons kv E ih =>
      intro e k h
      rw [List.foldl_cons, ih _ k (fun x hx => h x (List.mem_cons_of_mem kv hx)),
        envGet_envSet_other e kv.1 k kv.2 (h kv (List.mem_cons_self kv E)).symm]

theorem envGet_foldl_mem (E : List (List Char × List Char)) :
    ∀ (e : ShEnv) (k v : List Char), ((E.map Prod.fst).Nodup) → (k, v) ∈ E →
    envGet (E.foldl (fun a kv => envSet a kv.1 kv.2) e) k = some v := by
  induction E with
  | nil => intro e k v _ hmem; cases hmem
  | cons kv E ih =>
      intro e k v hnd hmem
      rw [List.foldl_cons]
      have hnd2 : kv.1 ∉ E.map Prod.fst ∧ (E.map Prod.fst).Nodup := by
        rw [List.map_cons, List.nodup_cons] at hnd
        exact hnd
      rcases List.mem_cons.mp hmem with heq | hmem2
      · subst heq
        have hnot : ∀ x ∈ E, x.1 ≠ k := by
          intro x hx hcon
          exact hnd2.1 (List.mem_map.mpr ⟨x, hx, hcon⟩)
        rw [envGet_foldl_other E _ k hnot, envGet_envSet_self]
      · exact ih _ k v hnd2.2 hmem2

/-- C1: for any environment (valid, distinct variable names; values already
stringified) and any script, the command line built by
`Bash.build_command_line(S, cwd=None, env=E)` tokenizes to the bash launcher
applied to the single full script; that script runs the export prelude and
then `S` verbatim; executing the prelude from any starting environment binds
each variable of `E` to exactly its value (quotes, spaces and newlines
included) while producing no output; and in particular the scenario
`env={"X": "it" quote "s"}` with script `echo $X` yields exactly that value
as the sole stdout line. -/
theorem bash_build_command_line_exports (E : List (List Char × List Char)) (S : List Char)
    (hk : ∀ kv ∈ E, validIdent kv.1 = true) (hnd : (E.map Prod.fst).Nodup) :
    ((parseCmds (Bash.build_command_line S none E)).map
        (fun cmds => cmds.map (fun c => c.map wordChars)) =
      some [["/usr/bin/bash".data, "-c".data, Bash.add_cwd_and_env S none E]]) ∧
    (E ≠ [] → parseCmds (Bash.add_cwd_and_env S none E) =
      (parseCmds S).map (fun r => exportCmds E ++ ([] :: r))) ∧
    (∀ env0 out0, ∃ st1,
      execScript (exportCmds E ++ [[]]) { env := env0, out := out0 } = some st1 ∧
      st1.out = out0 ∧ ∀ kv ∈ E, envGet st1.env kv.1 = some kv.2) ∧
    (runBashCommandLine (Bash.build_command_line "echo $X".data none
        [("X".data, "it\x27s".data)]) [] = some ["it\x27s".data]) := by
  refine ⟨parse_build_command_line S none E,
    fun hE => parse_add_cwd_and_env S E hk hE, ?_, by decide⟩
  intro env0 out0
  refine ⟨_, execScript_exportCmds E env0 out0 hk, rfl, ?_⟩
  intro kv hkv
  exact envGet_foldl_mem E env0 kv.1 kv.2 hnd (by rw [Prod.mk.eta]; exact hkv)

/-- C1 witness: the concrete scenario, instantiating the theorem at the
single-variable environment. -/
theorem bash_build_command_line_exports_witness :
    runBashCommandLine (Bash.build_command_line "echo $X".data none
      [("X".data, "it\x27s".data)]) [] = some ["it\x27s".data] :=
  (bash_build_command_line_exports [("X".data, "it\x27s".data)] "echo $X".data
    (by decide) (by decide)).2.2.2
